import Mathlib

/-!
Verification development for the event-extraction core of the
`event_mospolytech_bot` repository (files `src/parser/llm_event_extractor.py`
and `src/parser/telegram_parser_v2.py`).

The Python code is shallowly embedded: pure functions become Lean functions
over `List Char` / `String`, the lazily-loaded LLM handle becomes explicit
state passing, `datetime.now(moscow_tz)` becomes an explicit `PyDate`
parameter, network fetches and LLM generations become oracle parameters, and
Python floats (all extraction confidences are small decimal constants) are
modelled as `ℚ`.  Regular-expression searches from the source are compiled by
hand into positional matchers over `List Char`; each matcher carries a comment
naming the regex it implements.
-/

/-! ## Python string primitives

`str.lower`, `\w`, `\s`, `\d`, `str.strip`, `in` (substring), `str.split` are
modelled over `List Char`.  Lean's own `Char.toLower` is ASCII-only, so
Cyrillic case folding (U+0410–U+042F → U+0430–U+044F, Ё → ё) is spelled out,
which is what CPython's `str.lower` does on the alphabet appearing in this
repository. -/

def ruToLower (c : Char) : Char :=
  if 'A' ≤ c ∧ c ≤ 'Z' then Char.ofNat (c.toNat + 32)
  else if 0x410 ≤ c.toNat ∧ c.toNat ≤ 0x42F then Char.ofNat (c.toNat + 0x20)
  else if c.toNat = 0x401 then Char.ofNat 0x451
  else c

def ruToUpper (c : Char) : Char :=
  if 'a' ≤ c ∧ c ≤ 'z' then Char.ofNat (c.toNat - 32)
  else if 0x430 ≤ c.toNat ∧ c.toNat ≤ 0x44F then Char.ofNat (c.toNat - 0x20)
  else if c.toNat = 0x451 then Char.ofNat 0x401
  else c

def lowerL (l : List Char) : List Char := l.map ruToLower

/-- Python `\s` (the ASCII whitespace of `str.strip` / `str.split`). -/
def isWsC (c : Char) : Bool :=
  c = ' ' || c = '\t' || c = '\n' || c = '\r' || c.toNat = 11 || c.toNat = 12

/-- Python `\d` restricted to ASCII digits, which is all the source ever feeds it. -/
def isDigitC (c : Char) : Bool := 48 ≤ c.toNat && c.toNat ≤ 57

/-- Cyrillic letters (both cases, with Ё/ё). -/
def isCyr (c : Char) : Bool :=
  (0x410 ≤ c.toNat && c.toNat ≤ 0x44F) || c.toNat = 0x401 || c.toNat = 0x451

/-- Python (Unicode) `\w` on the Latin/Cyrillic alphabet used by the source:
ASCII alphanumerics, underscore, and Cyrillic letters. -/
def isWordC (c : Char) : Bool := c.isAlphanum || c = '_' || isCyr c

/-- Boolean list-prefix test (avoids any library name; `a` is a prefix of `b`). -/
def listPrefix : List Char → List Char → Bool
  | [], _ => true
  | _ :: _, [] => false
  | a :: as, b :: bs => a == b && listPrefix as bs

/-- Python `needle in hay` (substring containment). -/
def listContains (hay needle : List Char) : Bool :=
  (List.range (hay.length + 1)).any fun i => listPrefix needle (hay.drop i)

def strContains (hay needle : String) : Bool := listContains hay.data needle.data

/-- Python `str.strip()`. -/
def stripChars (l : List Char) : List Char :=
  ((l.dropWhile isWsC).reverse.dropWhile isWsC).reverse

/-- Python `str.split('\n')` (always at least one piece, even on `""`). -/
def splitNl : List Char → List (List Char)
  | [] => [[]]
  | c :: cs =>
    match splitNl cs with
    | [] => [[c]]
    | h :: t => if c = '\n' then [] :: h :: t else (c :: h) :: t

def joinNl : List (List Char) → List Char
  | [] => []
  | [l] => l
  | l :: ls => l ++ '\n' :: joinNl ls

/-- Helper for `splitWs`: single pass with the word built so far (reversed). -/
def splitWsAux (cur : List Char) : List Char → List (List Char)
  | [] => if cur = [] then [] else [cur.reverse]
  | c :: cs =>
    if isWsC c then
      (if cur = [] then splitWsAux [] cs else cur.reverse :: splitWsAux [] cs)
    else splitWsAux (c :: cur) cs

/-- Python whitespace `str.split()` (splits on runs, drops empty pieces). -/
def splitWs (l : List Char) : List (List Char) := splitWsAux [] l

def joinSpace : List (List Char) → List Char
  | [] => []
  | [w] => w
  | w :: ws => w ++ ' ' :: joinSpace ws

/-- Python `str.zfill(2)`. -/
def zfill2 (l : List Char) : List Char := List.replicate (2 - l.length) '0' ++ l

/-- Decimal value of a captured digit string (Python `int(...)` on `\d+`). -/
def natOfDigits (l : List Char) : Nat :=
  l.foldl (fun acc c => acc * 10 + (c.toNat - '0'.toNat)) 0

def natChars (n : Nat) : List Char := (Nat.repr n).data

/-- Python `str.capitalize()` (first char uppercased, rest lowercased). -/
def pyCapitalize : List Char → List Char
  | [] => []
  | c :: cs => ruToUpper c :: cs.map ruToLower

def asciiUpper (s : String) : String := String.mk (s.data.map Char.toUpper)

/-! ## Calendar model for `datetime` / `timedelta(days=k)` / `strftime('%d.%m.%Y')` -/

structure PyDate where
  year : Nat
  month : Nat
  day : Nat
deriving DecidableEq, Repr

def isLeap (y : Nat) : Bool := (y % 4 = 0 && y % 100 ≠ 0) || y % 400 = 0

def daysInMonth (y m : Nat) : Nat :=
  if m = 2 then (if isLeap y then 29 else 28)
  else if m = 4 || m = 6 || m = 9 || m = 11 then 30
  else 31

/-- Whether `datetime(year, month, day)` succeeds (no `ValueError`). -/
def isValidDate (y m d : Nat) : Bool :=
  1 ≤ y && y ≤ 9999 && 1 ≤ m && m ≤ 12 && 1 ≤ d && d ≤ daysInMonth y m

def nextDay (dt : PyDate) : PyDate :=
  if dt.day < daysInMonth dt.year dt.month then { dt with day := dt.day + 1 }
  else if dt.month < 12 then { year := dt.year, month := dt.month + 1, day := 1 }
  else { year := dt.year + 1, month := 1, day := 1 }

def addDays : Nat → PyDate → PyDate
  | 0, dt => dt
  | n + 1, dt => addDays n (nextDay dt)

/-- `strftime('%d.%m.%Y')`. -/
def fmtDate (dt : PyDate) : String :=
  String.mk (zfill2 (natChars dt.day) ++ '.' :: zfill2 (natChars dt.month) ++ '.' :: natChars dt.year)

/-! ## Positional regex helpers

The source uses `re.search`; matchers below work over a fixed `List Char`
with explicit positions.  `\b` is a word boundary, `litAt` a literal at a
position, `digitsAt` exactly `n` ASCII digits, `wsRunLen` the maximal `\s` run
starting at a position. -/

def wordAt (s : List Char) (i : Nat) : Bool :=
  match s[i]? with
  | some c => isWordC c
  | none => false

/-- Word boundary `\b` between positions `i-1` and `i`. -/
def bdry (s : List Char) (i : Nat) : Bool :=
  (decide (i ≠ 0) && wordAt s (i - 1)) != wordAt s i

def litAt (s : List Char) (i : Nat) (lit : List Char) : Bool :=
  listPrefix lit (s.drop i)

/-- Case-insensitive literal at a position (`re.IGNORECASE`; `lit` lowercase). -/
def litAtCI (s : List Char) (i : Nat) (lit : List Char) : Bool :=
  listPrefix lit (lowerL ((s.drop i).take lit.length))

def digitsAt (s : List Char) (i n : Nat) : Bool :=
  ((s.drop i).take n).length = n && ((s.drop i).take n).all isDigitC

def classAt (p : Char → Bool) (s : List Char) (i : Nat) : Bool :=
  match s[i]? with
  | some c => p c
  | none => false

/-- Length of the maximal whitespace run starting at `i`. -/
def wsRunLen (s : List Char) (i : Nat) : Nat :=
  ((s.drop i).takeWhile isWsC).length

def positions (s : List Char) : List Nat := List.range (s.length + 1)

/-! ## `RussianEventExtractor.extract_date` — the three inline regex branches

`re.search(r'(\d{1,2})\.(\d{1,2})\.(\d{4})', text)` with captures.  Leftmost
match; at each start `\d{1,2}` is greedy with backtracking (try 2 digits, then
1). -/

def dmyAt (s : List Char) (i : Nat) : Option (List Char × List Char × List Char) :=
  ([2, 1] : List Nat).findSome? fun a =>
    if digitsAt s i a && classAt (· = '.') s (i + a) then
      ([2, 1] : List Nat).findSome? fun b =>
        if digitsAt s (i + a + 1) b && classAt (· = '.') s (i + a + 1 + b)
            && digitsAt s (i + a + b + 2) 4 then
          some ((s.drop i).take a, (s.drop (i + a + 1)).take b, (s.drop (i + a + b + 2)).take 4)
        else none
    else none

def findDMY (s : List Char) : Option (List Char × List Char × List Char) :=
  (positions s).findSome? fun i => dmyAt s i

/-- `re.search(r'(\d{1,2})\.(\d{1,2})(?!\.)', text)`: day, month, negative
lookahead for a following dot. -/
def dmAt (s : List Char) (i : Nat) : Option (List Char × List Char) :=
  ([2, 1] : List Nat).findSome? fun a =>
    if digitsAt s i a && classAt (· = '.') s (i + a) then
      ([2, 1] : List Nat).findSome? fun b =>
        if digitsAt s (i + a + 1) b && !classAt (· = '.') s (i + a + 1 + b) then
          some ((s.drop i).take a, (s.drop (i + a + 1)).take b)
        else none
    else none

def findDM (s : List Char) : Option (List Char × List Char) :=
  (positions s).findSome? fun i => dmAt s i

def month_names : List (String × Nat) :=
  [("января", 1), ("февраля", 2), ("марта", 3), ("апреля", 4), ("мая", 5), ("июня", 6),
   ("июля", 7), ("августа", 8), ("сентября", 9), ("октября", 10), ("ноября", 11), ("декабря", 12)]

/-- `re.search(r'(\d{1,2})\s+(января|...|декабря)(?:\s+(\d{4}))?', text_lower)`.
The month name must start right after the (greedy) `\s+` run since it begins
with a non-space letter; the optional year group likewise requires the four
digits to start right after its own `\s+` run. -/
def monthNameAt (s : List Char) (i : Nat) : Option (List Char × Nat × Option (List Char)) :=
  ([2, 1] : List Nat).findSome? fun a =>
    if digitsAt s i a then
      let p := i + a
      let k := wsRunLen s p
      if 1 ≤ k then
        month_names.findSome? fun mn =>
          if litAt s (p + k) mn.1.data then
            let e := p + k + mn.1.data.length
            let k2 := wsRunLen s e
            if 1 ≤ k2 && digitsAt s (e + k2) 4 then
              some ((s.drop i).take a, mn.2, some ((s.drop (e + k2)).take 4))
            else
              some ((s.drop i).take a, mn.2, none)
          else none
      else none
    else none

def findMonthName (s : List Char) : Option (List Char × Nat × Option (List Char)) :=
  (positions s).findSome? fun i => monthNameAt s i

/-- The `ДД.ММ.ГГГГ` branch of `extract_date` (match + `datetime` validity;
an invalid calendar date falls through to the next branch, like the
`except ValueError: pass`). -/
def dateFromDMY (s : List Char) : Option (String × ℚ) :=
  (findDMY s).bind fun c =>
    if isValidDate (natOfDigits c.2.2) (natOfDigits c.2.1) (natOfDigits c.1) then
      some (String.mk (zfill2 c.1 ++ '.' :: zfill2 c.2.1 ++ '.' :: c.2.2), 95/100)
    else none

/-- The `ДД.ММ` branch (year taken from the current Moscow date). -/
def dateFromDM (now : PyDate) (s : List Char) : Option (String × ℚ) :=
  (findDM s).bind fun c =>
    if isValidDate now.year (natOfDigits c.2) (natOfDigits c.1) then
      some (String.mk (zfill2 c.1 ++ '.' :: zfill2 c.2 ++ '.' :: natChars now.year), 85/100)
    else none

/-- The `ДД месяца [ГГГГ]` branch (month-name table, searched on the lowered text). -/
def dateFromMonthName (now : PyDate) (tl : List Char) : Option (String × ℚ) :=
  (findMonthName tl).bind fun c =>
    let yearChars := c.2.2.getD (natChars now.year)
    if isValidDate (natOfDigits yearChars) c.2.1 (natOfDigits c.1) then
      some (String.mk (zfill2 c.1 ++ '.' :: zfill2 (natChars c.2.1) ++ '.' :: yearChars), 90/100)
    else none

/-- `RussianEventExtractor.extract_date`.  `now` stands for
`datetime.now(self.moscow_tz)` (the fixed Moscow timezone); the three relative
checks are plain substring tests on the lowered text, in source order. -/
def extract_date (now : PyDate) (text : String) : String × ℚ :=
  let tl := lowerL text.data
  if listContains tl "завтра".data then (fmtDate (addDays 1 now), 95/100)
  else if listContains tl "сегодня".data then (fmtDate now, 95/100)
  else if listContains tl "послезавтра".data then (fmtDate (addDays 2 now), 95/100)
  else
    match dateFromDMY text.data with
    | some r => r
    | none =>
      match dateFromDM now text.data with
      | some r => r
      | none =>
        match dateFromMonthName now tl with
        | some r => r
        | none => ("Не указана", 0)

/-! ## `RussianEventExtractor.extract_time` -/

/-- `re.search(r'(\d{1,2}):(\d{2})\s*-\s*(\d{1,2}):(\d{2})', text)` with
captures.  Both `\s*` runs are maximal (the following `-` resp. digit is not
whitespace, so no shorter run can complete the match). -/
def timeRangeAt (s : List Char) (i : Nat) :
    Option (List Char × List Char × List Char × List Char) :=
  ([2, 1] : List Nat).findSome? fun a =>
    if digitsAt s i a && classAt (· = ':') s (i + a) && digitsAt s (i + a + 1) 2 then
      let p := i + a + 3
      let k1 := wsRunLen s p
      if classAt (· = '-') s (p + k1) then
        let q := p + k1 + 1
        let k2 := wsRunLen s q
        ([2, 1] : List Nat).findSome? fun c =>
          if digitsAt s (q + k2) c && classAt (· = ':') s (q + k2 + c)
              && digitsAt s (q + k2 + c + 1) 2 then
            some ((s.drop i).take a, (s.drop (i + a + 1)).take 2,
                  (s.drop (q + k2)).take c, (s.drop (q + k2 + c + 1)).take 2)
          else none
      else none
    else none

def findTimeRange (s : List Char) :
    Option (List Char × List Char × List Char × List Char) :=
  (positions s).findSome? fun i => timeRangeAt s i

/-- `re.search(r'\b(\d{1,2}):(\d{2})\b', text)` with captures. -/
def timeSingleAt (s : List Char) (i : Nat) : Option (List Char × List Char) :=
  ([2, 1] : List Nat).findSome? fun a =>
    if bdry s i && digitsAt s i a && classAt (· = ':') s (i + a)
        && digitsAt s (i + a + 1) 2 && bdry s (i + a + 3) then
      some ((s.drop i).take a, (s.drop (i + a + 1)).take 2)
    else none

def findTimeSingle (s : List Char) : Option (List Char × List Char) :=
  (positions s).findSome? fun i => timeSingleAt s i

/-- First (key, value) of an insertion-ordered dict whose key occurs in `tl`. -/
def firstMatch (tl : List Char) : List (String × String) → Option String
  | [] => none
  | (k, v) :: rest => if listContains tl k.data then some v else firstMatch tl rest

def time_words : List (String × String) :=
  [("утро", "09:00"), ("днём", "14:00"), ("днем", "14:00"),
   ("вечер", "18:00"), ("ночь", "20:00")]

/-- `RussianEventExtractor.extract_time`.  The `try: int(hour), int(minute)`
in the single-time branch of the source can never raise (both captures are
digit strings), so it is a no-op here. -/
def extract_time (text : String) : String × ℚ :=
  let tl := lowerL text.data
  match findTimeRange text.data with
  | some c =>
    (String.mk (zfill2 c.1 ++ ':' :: c.2.1 ++ ' ' :: '-' :: ' ' :: zfill2 c.2.2.1 ++ ':' :: c.2.2.2),
     95/100)
  | none =>
    match findTimeSingle text.data with
    | some c => (String.mk (zfill2 c.1 ++ ':' :: c.2), 90/100)
    | none =>
      match firstMatch tl time_words with
      | some v => (v, 70/100)
      | none => ("Не указано", 0)

/-! ## `RussianEventExtractor.extract_location` -/

/-- First element of a list that occurs as a substring of `tl`. -/
def firstContained (tl : List Char) : List String → Option String
  | [] => none
  | p :: rest => if listContains tl p.data then some p else firstContained tl rest

def online_platforms : List String :=
  ["zoom", "teams", "skype", "discord", "youtube", "youtube live"]

def roomTypes : List String :=
  ["аудитория", "аудиторие", "корпусе", "корпуса", "кабинете", "кабинета",
   "помещения", "помещение", "зале", "зала"]

/-- A character of the room-number class (digits, Cyrillic letters, whitespace, dash, slash). -/
def isRoomNumC (c : Char) : Bool :=
  isDigitC c || isCyr c || isWsC c || c = '-' || c = '/'

/-- Terminator `(?:\n|,|\.|$)` of the room regex (`$` also matches just before
a trailing newline, which the `\n` alternative subsumes). -/
def roomTermAt (s : List Char) (j : Nat) : Bool :=
  j = s.length || classAt (fun c => c = '\n' || c = ',' || c = '.') s j

/-- Lazy `(marker? class+?)(terminator)` content group starting at `q`: the
shortest non-empty class run followed by a terminator.  Returns the capture
(without the optional marker, which the caller prepends). -/
def roomNumFrom (s : List Char) (q : Nat) : Option (List Char) :=
  (List.range s.length).findSome? fun m =>
    if ((s.drop q).take (m + 1)).length = m + 1
        && ((s.drop q).take (m + 1)).all isRoomNumC
        && roomTermAt s (q + m + 1) then
      some ((s.drop q).take (m + 1))
    else none

def isMarkerC (c : Char) : Bool := c.toNat = 0x2116 || c = '#'

/-- The content group at `q` with the greedy optional `[№#]?` marker: with the
marker first when one is present, else without. -/
def roomGroupFrom (s : List Char) (q : Nat) : Option (List Char) :=
  if classAt isMarkerC s q then
    match roomNumFrom s (q + 1) with
    | some num =>
      some ((s.drop q).take 1 ++ num)
    | none => roomNumFrom s q
  else roomNumFrom s q

/-- The room regex of `extract_location`: `\b(аудитори..|корпус..|кабинет..|помещени..|зал..)` then `\s+`, then the lazy number group, searched with `re.IGNORECASE`.
After the room word, the greedy `\s+` is tried from the maximal run
downwards (shorter runs matter because the content class itself contains
`\s`); the room-word capture keeps the original casing. -/
def roomAt (s : List Char) (i : Nat) : Option (List Char × List Char) :=
  if bdry s i then
    roomTypes.findSome? fun ty =>
      if litAtCI s i ty.data then
        let e := i + ty.data.length
        let kmax := wsRunLen s e
        (List.range kmax).findSome? fun d =>
          let k := kmax - d
          (roomGroupFrom s (e + k)).map fun num => ((s.drop i).take ty.data.length, num)
      else none
  else none

def findRoom (s : List Char) : Option (List Char × List Char) :=
  (positions s).findSome? fun i => roomAt s i

def locations_keywords : List (String × String) :=
  [("стадион", "Стадион Политеха"), ("театр", "Театр"),
   ("концертный зал", "Концертный зал"), ("спортзал", "Спортзал"),
   ("актовый зал", "Актовый зал"), ("конференц-зал", "Конференц-зал")]

/-- `RussianEventExtractor.extract_location`. -/
def extract_location (text : String) : String × ℚ :=
  let tl := lowerL text.data
  match firstContained tl online_platforms with
  | some p => ("Онлайн (" ++ asciiUpper p ++ ")", 95/100)
  | none =>
    if listContains tl "онлайн".data || listContains tl "трансляция".data
        || listContains tl "вебинар".data then ("Онлайн", 90/100)
    else
      match findRoom text.data with
      | some c =>
        (String.mk (pyCapitalize c.1) ++ " " ++ String.mk (stripChars c.2), 90/100)
      | none =>
        match firstMatch tl locations_keywords with
        | some name => (name, 85/100)
        | none =>
          if listContains tl "мосполитех".data || listContains tl "политех".data then
            ("Московский Политех", 70/100)
          else ("Не указано", 0)

/-! ## `RussianEventExtractor.extract_category` and `extract_title` -/

def category_keywords : List (String × List String) :=
  [("education",
    ["лекция", "семинар", "мастер-класс", "тренинг", "курс", "школа",
     "конференция", "дебаты", "практикум", "консультация"]),
   ("career",
    ["профориентация", "карьера", "стажировка", "интернш", "собеседование",
     "работа", "вакансия", "центр карьеры"]),
   ("competitions",
    ["конкурс", "фестиваль", "олимпиада", "чемпионат", "турнир",
     "соревнование", "конкурс творчества", "конкурс проектов"]),
   ("exhibitions",
    ["выставка", "экспозиция", "выставочный", "галерея", "инсталляция"]),
   ("culture",
    ["концерт", "выступление", "танец", "танцевальный", "кино", "фильм",
     "иллюзион", "шоу", "перформанс", "представление", "спектакль",
     "творческий", "вокальный"]),
   ("volunteering",
    ["волонтер", "волонтёрск", "социальн", "благотворител", "помощь",
     "акция", "инициатива", "проект", "общественн"]),
   ("student_life",
    ["студенческ", "студент", "встреча", "клуб", "сообщество", "творческая мастерская",
     "собрание", "самоуправлени", "соуправлени"])]

/-- Python `max(scores, key=scores.get)` over an insertion-ordered dict:
the first key attaining the maximum (a later key wins only with a strictly
greater score). -/
def maxByScore : List (String × Nat) → Option (String × Nat)
  | [] => none
  | (c, n) :: rest =>
    match maxByScore rest with
    | none => some (c, n)
    | some (c2, n2) => if n2 > n then some (c2, n2) else some (c, n)

/-- `RussianEventExtractor.extract_category`. -/
def extract_category (text : String) : String :=
  let tl := lowerL text.data
  let scores := category_keywords.filterMap fun ck =>
    let sc := ck.2.countP fun kw => listContains tl kw.data
    if sc > 0 then some (ck.1, sc) else none
  match maxByScore scores with
  | some m => m.1
  | none => "student_life"

/-- `RussianEventExtractor.extract_title`.  The words fallback mirrors the
source but is unreachable: `str.split('\n')` never returns an empty list. -/
def extract_title (text : String) : String :=
  match splitNl text.data with
  | [] => String.mk ((joinSpace ((splitWs text.data).take 8)).take 100)
  | l :: _ =>
    let title := stripChars l
    if title.length > 100 then String.mk (title.take 97 ++ '.' :: '.' :: '.' :: [])
    else String.mk title

/-! ## `RussianEventExtractor.is_event_text`

The compiled pattern lists `date_patterns`, `time_patterns`,
`location_patterns` are used here only as existence tests
(`re.search(...) is not None` under `re.IGNORECASE`), so each pattern is
compiled to a Boolean matcher.  Case-insensitivity is modelled by running on
the lowered text: every literal in the patterns is lowercase and every
character class involved is closed under case. -/

def event_keywords : List String :=
  ["мероприятие", "событие", "встреча", "проводит", "приглашаем",
   "приглашает", "состоится", "пройдет", "проводится", "организуют",
   "объявляет", "объявляют", "запись", "регистрация", "анонс",
   "устраивает", "устраивают", "расписание", "график",
   "начинается", "начало", "стартует", "запускаем"]

def event_score (text : String) : Nat :=
  event_keywords.countP fun kw => listContains (lowerL text.data) kw.data

/-- `\b(\d{1,2})\.(\d{1,2})\.(\d{4})\b` (existence). -/
def dp1 (s : List Char) : Bool :=
  (positions s).any fun i => ([2, 1] : List Nat).any fun a => ([2, 1] : List Nat).any fun b =>
    bdry s i && digitsAt s i a && classAt (· = '.') s (i + a) && digitsAt s (i + a + 1) b
      && classAt (· = '.') s (i + a + 1 + b) && digitsAt s (i + a + b + 2) 4
      && bdry s (i + a + b + 6)

/-- `\b(\d{1,2})\.(\d{1,2})\b(?!\.)` (existence). -/
def dp2 (s : List Char) : Bool :=
  (positions s).any fun i => ([2, 1] : List Nat).any fun a => ([2, 1] : List Nat).any fun b =>
    bdry s i && digitsAt s i a && classAt (· = '.') s (i + a) && digitsAt s (i + a + 1) b
      && bdry s (i + a + 1 + b) && !classAt (· = '.') s (i + a + 1 + b)

def weekday_words : List String :=
  ["понедельник", "вторник", "среда", "четверг", "пятница", "суббота", "воскресенье"]

/-- A `\b`-delimited word from a list (existence). -/
def wordListHit (ws : List String) (s : List Char) : Bool :=
  (positions s).any fun i => ws.any fun w =>
    bdry s i && litAt s i w.data && bdry s (i + w.data.length)

/-- `\b(понедельник|вторник|среда|четверг|пятница|суббота|воскресенье)\b`. -/
def dp3 (s : List Char) : Bool := wordListHit weekday_words s

/-- `\b(\d{1,2})(\s+)(января|...|декабря)(\s+)?(\d{4})?\b` (existence).  The
final `\b` closes in one of four ways: right after the month name (both
optional groups skipped); after a four-digit year attached directly to the
month name (`(\s+)?` skipped but `(\d{4})?` taken); after a whitespace run
followed by a word character (the optional `(\s+)` can stop anywhere inside
the run, but `\b` after whitespace holds only where the next character is a
word character, i.e. at the run's end); or after a whitespace run and a
trailing four-digit year. -/
def dp4 (s : List Char) : Bool :=
  (positions s).any fun i => ([2, 1] : List Nat).any fun a =>
    bdry s i && digitsAt s i a &&
      (let p := i + a
       let k := wsRunLen s p
       decide (1 ≤ k) && month_names.any fun mn =>
         litAt s (p + k) mn.1.data &&
           (let e := p + k + mn.1.data.length
            let k2 := wsRunLen s e
            bdry s e
              || (digitsAt s e 4 && bdry s (e + 4))
              || (decide (1 ≤ k2) && wordAt s (e + k2))
              || (decide (1 ≤ k2) && digitsAt s (e + k2) 4 && bdry s (e + k2 + 4))))

def relative_words : List String := ["завтра", "сегодня", "послезавтра", "сейчас"]

/-- `\b(завтра|сегодня|послезавтра|сейчас)\b`. -/
def dp5 (s : List Char) : Bool := wordListHit relative_words s

/-- `\b(на|в)\s+(следующей|этой|этой\s+)?[^.]*?(неделе|дню|дата)\b` (existence).
The optional group's content never contains a dot, so for existence it is
absorbed by the lazy dot-free gap: after the preposition and one whitespace
character there must be a dot-free stretch ending at one of the keywords. -/
def dp6 (s : List Char) : Bool :=
  (positions s).any fun i => (["на", "в"] : List String).any fun pr =>
    bdry s i && litAt s i pr.data &&
      (let e := i + pr.data.length
       classAt isWsC s e &&
         (positions s).any fun j =>
           decide (e + 1 ≤ j) && ((s.drop (e + 1)).take (j - (e + 1))).all (· ≠ '.') &&
             (["неделе", "дню", "дата"] : List String).any fun w =>
               litAt s j w.data && bdry s (j + w.data.length))

def has_date (text : String) : Bool :=
  let tl := lowerL text.data
  dp1 tl || dp2 tl || dp3 tl || dp4 tl || dp5 tl || dp6 tl

/-- `\b(\d{1,2}):(\d{2})\b` (existence). -/
def tp1 (s : List Char) : Bool :=
  (positions s).any fun i => ([2, 1] : List Nat).any fun a =>
    bdry s i && digitsAt s i a && classAt (· = ':') s (i + a) && digitsAt s (i + a + 1) 2
      && bdry s (i + a + 3)

/-- `\b(в|с|с\s+|до|по)\s+(\d{1,2}):(\d{2})\b` (existence).  The `с\s+`
alternative is subsumed by `с` followed by the pattern's own `\s+`. -/
def tp2 (s : List Char) : Bool :=
  (positions s).any fun i => (["в", "с", "до", "по"] : List String).any fun pr =>
    bdry s i && litAt s i pr.data &&
      (let p := i + pr.data.length
       let k := wsRunLen s p
       decide (1 ≤ k) && ([2, 1] : List Nat).any fun a =>
         digitsAt s (p + k) a && classAt (· = ':') s (p + k + a)
           && digitsAt s (p + k + a + 1) 2 && bdry s (p + k + a + 3))

/-- `\b(\d{1,2}):(\d{2})\s*-\s*(\d{1,2}):(\d{2})\b` (existence). -/
def tp3 (s : List Char) : Bool :=
  (positions s).any fun i => ([2, 1] : List Nat).any fun a =>
    bdry s i && digitsAt s i a && classAt (· = ':') s (i + a) && digitsAt s (i + a + 1) 2 &&
      (let p := i + a + 3
       let k1 := wsRunLen s p
       classAt (· = '-') s (p + k1) &&
         (let q := p + k1 + 1
          let k2 := wsRunLen s q
          ([2, 1] : List Nat).any fun c =>
            digitsAt s (q + k2) c && classAt (· = ':') s (q + k2 + c)
              && digitsAt s (q + k2 + c + 1) 2 && bdry s (q + k2 + c + 3)))

/-- A two-part word `w1\s+w2` with enclosing boundaries (existence). -/
def spacedWordHit (w1 w2 : String) (s : List Char) : Bool :=
  (positions s).any fun i =>
    bdry s i && litAt s i w1.data &&
      (let p := i + w1.data.length
       let k := wsRunLen s p
       decide (1 ≤ k) && litAt s (p + k) w2.data && bdry s (p + k + w2.data.length))

/-- `\b(утром|днём|днем|вечером|ночью|с\s+утра|до\s+вечера)\b`. -/
def tp4 (s : List Char) : Bool :=
  wordListHit ["утром", "днём", "днем", "вечером", "ночью"] s
    || spacedWordHit "с" "утра" s || spacedWordHit "до" "вечера" s

def has_time (text : String) : Bool :=
  let tl := lowerL text.data
  tp1 tl || tp2 tl || tp3 tl || tp4 tl

def lp1_rooms : List String :=
  ["аудитория", "аудиторие", "корпусе", "корпуса", "зале", "зала",
   "помещения", "помещение", "кабинете", "кабинета", "комнате", "комната",
   "спортзале", "спортзала"]

/-- `\b(в|на)\s+(аудитори[яе]|корпус[еа]|зал[еа]|помещени[яе]|кабинет[еа]|комнат[еа]|спортзал[еа]|актовом\s+зал[еа]|конференц-зал[еа]|амфитеатр[еа])\s+([№#]?\d+|\w+)`
(existence).  The `[№#]?\d+|\w+` tail needs either a word character or a
marker followed by a digit. -/
def lp1 (s : List Char) : Bool :=
  (positions s).any fun i => (["в", "на"] : List String).any fun pr =>
    bdry s i && litAt s i pr.data &&
      (let p := i + pr.data.length
       let k := wsRunLen s p
       decide (1 ≤ k) &&
         (let roomEnd : Option Nat :=
            (lp1_rooms.findSome? fun r =>
              if litAt s (p + k) r.data then some (p + k + r.data.length) else none).orElse
            fun _ =>
              ((["зале", "зала"] : List String).findSome? fun z =>
                if litAt s (p + k) "актовом".data then
                  let q := p + k + "актовом".data.length
                  let k2 := wsRunLen s q
                  if decide (1 ≤ k2) && litAt s (q + k2) z.data then
                    some (q + k2 + z.data.length)
                  else none
                else none).orElse
              fun _ =>
                ((["конференц-зале", "конференц-зала"] : List String).findSome? fun z =>
                  if litAt s (p + k) z.data then some (p + k + z.data.length) else none).orElse
                fun _ =>
                  (["амфитеатре", "амфитеатра"] : List String).findSome? fun z =>
                    if litAt s (p + k) z.data then some (p + k + z.data.length) else none
          match roomEnd with
          | none => false
          | some e =>
            let k3 := wsRunLen s e
            decide (1 ≤ k3) &&
              (wordAt s (e + k3)
                || (classAt isMarkerC s (e + k3) && classAt isDigitC s (e + k3 + 1)))))

def lp2_venues : List String :=
  ["стадионе", "стадиона", "театре", "театра", "кинотеатре", "кинотеатра",
   "музее", "музеа", "парке", "парка", "сквере", "сквера", "центре", "центра",
   "офисе", "офиса", "ресторане", "ресторана", "кафе"]

/-- `\b(на|в|при)\s+(стадион[еа]|театр[еа]|кинотеатр[еа]|музе[еа]|парк[еа]|сквер[еа]|центр[еа]|офис[еа]|ресторан[еа]|кафе)` (existence). -/
def lp2 (s : List Char) : Bool :=
  (positions s).any fun i => (["на", "в", "при"] : List String).any fun pr =>
    bdry s i && litAt s i pr.data &&
      (let p := i + pr.data.length
       let k := wsRunLen s p
       decide (1 ≤ k) && lp2_venues.any fun v => litAt s (p + k) v.data)

/-- `\b(онлайн|zoom|microsoft\s+teams|skype|discord|youtube|трансляция|вебинар|видеоконференция)\b`. -/
def lp3 (s : List Char) : Bool :=
  wordListHit ["онлайн", "zoom", "skype", "discord", "youtube",
               "трансляция", "вебинар", "видеоконференция"] s
    || spacedWordHit "microsoft" "teams" s

/-- A character of the class `[А-Яа-яЁё\s]` of the street regex. -/
def isCyrWsC (c : Char) : Bool := isCyr c || isWsC c

/-- `\b(ул\.|улиц[аи])\s+([А-Яа-яЁё\s]+?)(?:,|$)` (existence).  The capture
class contains whitespace, so one whitespace character after the prefix and a
class run ending at a comma or end of string suffice; `$` also matches before
a trailing newline. -/
def lp4 (s : List Char) : Bool :=
  (positions s).any fun i => (["ул.", "улица", "улици"] : List String).any fun pr =>
    bdry s i && litAt s i pr.data &&
      (let e := i + pr.data.length
       classAt isWsC s e &&
         (positions s).any fun j =>
           decide (e + 2 ≤ j) && ((s.drop (e + 1)).take (j - (e + 1))).all isCyrWsC &&
             (classAt (· = ',') s j || decide (j = s.length)
               || (decide (j + 1 = s.length) && classAt (· = '\n') s j)))

/-- `\b(мосполитех|мос\s?политех|московск[ий]?\s+политех)` (existence). -/
def lp5 (s : List Char) : Bool :=
  ((positions s).any fun i =>
    bdry s i && litAt s i "мос".data &&
      (litAt s (i + 3) "политех".data
        || (classAt isWsC s (i + 3) && litAt s (i + 4) "политех".data)))
  || ((positions s).any fun i =>
    bdry s i && litAt s i "московск".data &&
      (let b := i + 8
       ((["и", "й"] : List String).any fun opt =>
          litAt s b opt.data &&
            (let k := wsRunLen s (b + 1)
             decide (1 ≤ k) && litAt s (b + 1 + k) "политех".data))
        || (let k := wsRunLen s b
            decide (1 ≤ k) && litAt s (b + k) "политех".data)))

def has_location (text : String) : Bool :=
  let tl := lowerL text.data
  lp1 tl || lp2 tl || lp3 tl || lp4 tl || lp5 tl

def elementsFound (text : String) : Nat :=
  (has_date text).toNat + (has_time text).toNat + (has_location text).toNat

/-- `RussianEventExtractor.is_event_text`: keyword score plus
date/time/location presence, decided by
`(has_keywords and elements_found >= 1) or (event_score >= 2)`. -/
def is_event_text (text : String) : Bool :=
  (decide (0 < event_score text) && decide (1 ≤ elementsFound text))
    || decide (2 ≤ event_score text)

/-! ## `EventData` and the lazily-loaded LLM (`RussianEventExtractor._get_llm`)

The model handle is opaque (`Unit`); a load attempt's outcome is an oracle
value `Option Unit` (`none` = the constructor or `load_model()` raised).  The
relevant instance attributes `use_llm`, `_llm`, `_llm_loaded`, `_llm_error`
form the state.  Each state-passing function also returns a `Bool` recording
whether this call attempted a model load. -/

structure EventData where
  title : String
  date : String
  time : String
  location : String
  description : String
  category : String
  telegram_url : String
  confidence : ℚ
deriving DecidableEq, Repr

structure ExtractorState where
  use_llm : Bool
  llm : Option Unit
  llm_loaded : Bool
  llm_error : Bool
deriving DecidableEq, Repr

/-- `RussianEventExtractor._get_llm`: returns the handle, the new state, and
whether a load was attempted. -/
def getLlm (st : ExtractorState) (loadResult : Option Unit) :
    Option Unit × ExtractorState × Bool :=
  if st.llm_error then (none, st, false)
  else if st.llm_loaded && st.llm.isSome then (st.llm, st, false)
  else if !st.llm_loaded then
    match loadResult with
    | some h => (some h, { st with llm := some h, llm_loaded := true }, true)
    | none => (none, { st with llm_error := true, use_llm := false }, true)
  else (st.llm, st, false)

/-! ## JSON extraction from the model response

`re.search(r'\{[^{}]*(?:\{[^{}]*\}[^{}]*)*\}', response, re.DOTALL)`: leftmost
fragment consisting of a brace pair whose interior may contain complete
brace pairs one level deep.  The quantifier structure is deterministic: after
an opening brace the maximal brace-free run is forced, a nested pair must
then be completed immediately or the whole start position fails. -/

def isOB (c : Char) : Bool := c.toNat = 123
def isCB (c : Char) : Bool := c.toNat = 125
def nonBrace (c : Char) : Bool := !isOB c && !isCB c

/-- Length consumed by `(?:\{[^{}]*\}[^{}]*)*\}` from the current position
(fuelled recursion; the suffix shrinks by at least one per step). -/
def jsonTailLen : Nat → List Char → Option Nat
  | 0, _ => none
  | _ + 1, [] => none
  | fuel + 1, c :: cs =>
    if isCB c then some 1
    else if isOB c then
      match cs.dropWhile nonBrace with
      | c2 :: cs2 =>
        if isCB c2 then
          (jsonTailLen fuel (cs2.dropWhile nonBrace)).map fun n =>
            1 + (cs.takeWhile nonBrace).length + 1 + (cs2.takeWhile nonBrace).length + n
        else none
      | [] => none
    else none

/-- Length of the regex match starting exactly at position `i`, if any. -/
def jsonMatchLenAt (s : List Char) (i : Nat) : Option Nat :=
  match s.drop i with
  | c :: cs =>
    if isOB c then
      (jsonTailLen (s.length + 1) (cs.dropWhile nonBrace)).map fun n =>
        1 + (cs.takeWhile nonBrace).length + n
    else none
  | [] => none

/-- `json_match.group()` of `_refine_with_llm`: the leftmost match of the
brace regex in the response, or `None`. -/
def extractJsonFragment (resp : String) : Option String :=
  ((positions resp.data).findSome? fun i =>
    (jsonMatchLenAt resp.data i).map fun n => (i, n)).map fun c =>
      String.mk ((resp.data.drop c.1).take c.2)

/-- The first balanced brace-delimited block of a string, modelled from the
spec's words: scan to the first opening brace, then to its matching closing
brace counting nesting depth, tolerating arbitrarily nested braces inside. -/
def balancedCloseLen : List Char → Nat → Nat → Option Nat
  | [], _, _ => none
  | c :: cs, d, n =>
    if isOB c then balancedCloseLen cs (d + 1) (n + 1)
    else if isCB c then
      if d = 1 then some (n + 1) else balancedCloseLen cs (d - 1) (n + 1)
    else balancedCloseLen cs d (n + 1)

def firstBalancedBlock (resp : String) : Option String :=
  (List.findIdx? isOB resp.data).bind fun i =>
    (balancedCloseLen (resp.data.drop i) 0 0).map fun n =>
      String.mk ((resp.data.drop i).take n)

/-- The result of `json.loads` on the extracted fragment, abstracted: the
standard-library JSON parser is not repository code, so it enters the model
as a parameter of this shape (`none` = `json.loads` raised; field accessors
model `data.get(key)` with its `None`-on-absence behaviour). -/
structure JsonObj where
  title : Option String
  date : Option String
  time : Option String
  location : Option String
  description : Option String

/-- The draft `extracted_info` dict passed to `_refine_with_llm`. -/
structure DraftInfo where
  title : String
  date : String
  time : String
  location : String
  category : String
deriving DecidableEq, Repr

def strTake (s : String) (n : Nat) : String := String.mk (s.data.take n)

/-- `RussianEventExtractor._refine_with_llm`.  `parseJson` abstracts
`json.loads`; `response` is the oracle outcome of
`llm.generate_response(...)` (`none` covers both `None` and a falsy empty
response); the prompt construction does not influence any modelled
property.  Returns the refined record (or `none`), the new state, and
whether a load was attempted. -/
def refineWithLlm (parseJson : String → Option JsonObj) (st : ExtractorState)
    (loadResult : Option Unit) (response : Option String)
    (text : String) (info : DraftInfo) : Option EventData × ExtractorState × Bool :=
  match getLlm st loadResult with
  | (none, st2, att) => (none, st2, att)
  | (some _, st2, att) =>
    match response with
    | none => (none, st2, att)
    | some resp =>
      match extractJsonFragment resp with
      | none => (none, st2, att)
      | some frag =>
        match parseJson frag with
        | none => (none, st2, att)
        | some data =>
          (some {
            title := strTake (data.title.getD info.title) 150
            date := data.date.getD info.date
            time := data.time.getD info.time
            location := data.location.getD info.location
            description := data.description.getD (strTake text 500)
            category := info.category
            telegram_url := ""
            confidence := 85/100 }, st2, att)

/-! ## `RussianEventExtractor.extract_event_info` -/

/-- `text[:500] if len(text) > 500 else text`. -/
def heuristicDescription (text : String) : String :=
  if text.length > 500 then strTake text 500 else text

/-- The regex-only `EventData` built at the end of `extract_event_info`
(confidence `min((date_conf + time_conf + location_conf) / 3, 1.0)`). -/
def heuristicEvent (now : PyDate) (text url : String) : EventData :=
  { title := extract_title text
    date := (extract_date now text).1
    time := (extract_time text).1
    location := (extract_location text).1
    description := heuristicDescription text
    category := extract_category text
    telegram_url := url
    confidence := min (((extract_date now text).2 + (extract_time text).2 + (extract_location text).2) / 3) 1 }

def draftOf (now : PyDate) (text : String) : DraftInfo :=
  { title := extract_title text
    date := (extract_date now text).1
    time := (extract_time text).1
    location := (extract_location text).1
    category := extract_category text }

/-- `RussianEventExtractor.extract_event_info`.  A refinement that returns a
record is passed through; a `None` refinement (including every failure
absorbed inside `_refine_with_llm`) falls back to the heuristic record. -/
def extract_event_info (parseJson : String → Option JsonObj) (st : ExtractorState)
    (loadResult : Option Unit) (response : Option String)
    (now : PyDate) (text url : String) : Option EventData × ExtractorState :=
  if !is_event_text text then (none, st)
  else if st.use_llm then
    match refineWithLlm parseJson st loadResult response text (draftOf now text) with
    | (some e, st2, _) => (some e, st2)
    | (none, st2, _) => (some (heuristicEvent now text url), st2)
  else (some (heuristicEvent now text url), st)

/-! ## `TelegramParserV2._fetch_page`

The attempt loop: the `k`-th attempt's outcome is the oracle `oracle k`
(`some text` = HTTP 200 with that body; `none` = non-200 status or
`httpx.RequestError`, which the source treats identically apart from
logging).  The returned list records the `asyncio.sleep` durations in order:
after a failed attempt `k` that is not the last one, the source sleeps
`min(self.retry_delay * (2 ** attempt), 30)`. -/

def fetchAux (oracle : Nat → Option String) (baseDelay : ℚ) :
    Nat → Nat → Option String × List ℚ
  | _, 0 => (none, [])
  | k, r + 1 =>
    match oracle k with
    | some body => (some body, [])
    | none =>
      if r = 0 then (none, [])
      else
        ((fetchAux oracle baseDelay (k + 1) r).1,
         min (baseDelay * 2 ^ k) 30 :: (fetchAux oracle baseDelay (k + 1) r).2)

def fetchPage (oracle : Nat → Option String) (maxRetries : Nat) (baseDelay : ℚ) :
    Option String × List ℚ :=
  fetchAux oracle baseDelay 0 maxRetries

/-! ## `TelegramParserV2._clean_text`, `parse_channel` -/

def skip_markers : List String :=
  ["views", "forward", "подписаться", "subscribe",
   "reactions", "комментарий", "просмотр"]

/-- `TelegramParserV2._clean_text`: strip each line, drop empty lines and
lines containing a denylist marker (checked on the lowered line), re-join.
The final `.strip()` of the source is a no-op on the join of stripped
non-empty lines and is reproduced for faithfulness. -/
def clean_text (text : String) : String :=
  String.mk (stripChars (joinNl
    (((splitNl text.data).map stripChars).filter fun l =>
      !l.isEmpty && !skip_markers.any fun m => listContains (lowerL l) m.data)))

/-- One parsed `div.tgme_widget_message`: the `time` tag's instant (already
converted to the Moscow timezone, as an abstract `Int` timestamp), the text
block, and the permalink — each `none` when the tag is missing. -/
structure PostBlock where
  timeTag : Option Int
  textDiv : Option String
  link : Option String
deriving DecidableEq, Repr

structure TelegramMessage where
  id : String
  text : String
  datetime : Int
  url : String
  channel : String
  message_hash : String
deriving DecidableEq, Repr

/-- `TelegramParserV2._generate_message_hash`: the md5 of
`f"{text}|{datetime.isoformat()}|{channel}"` is modelled as that content
string itself (a collision-free fingerprint of the same data). -/
def generate_message_hash (m : TelegramMessage) : String :=
  m.text ++ "|" ++ toString m.datetime ++ "|" ++ m.channel

/-- `url.split('/')[-1]`. -/
def lastSegment (url : String) : String := (url.splitOn "/").getLastD ""

/-- The per-`div` body of the loop in `TelegramParserV2.parse_channel`:
missing time tag, too-old date, missing text block, empty/short cleaned
text, missing link, or an already-seen hash each leave the accumulated
`(messages, seen_messages)` unchanged. -/
def processDiv (channel : String) (cutoff : Int)
    (acc : List TelegramMessage × List String) (d : PostBlock) :
    List TelegramMessage × List String :=
  match d.timeTag with
  | none => acc
  | some t =>
    if t < cutoff then acc
    else
      match d.textDiv with
      | none => acc
      | some raw =>
        let text := clean_text raw
        if text = "" || text.length < 10 then acc
        else
          match d.link with
          | none => acc
          | some url =>
            let m0 : TelegramMessage :=
              { id := lastSegment url, text := text, datetime := t, url := url,
                channel := channel, message_hash := "" }
            let h := generate_message_hash m0
            if h ∈ acc.2 then acc
            else (acc.1 ++ [{ m0 with message_hash := h }], acc.2 ++ [h])

/-- `TelegramParserV2.parse_channel`: `none` for the page means
`_fetch_page` returned `None` (the method returns `[]`); otherwise the post
blocks are folded through `processDiv`.  `seen` is the instance-level
`self.seen_messages`, shared across channels. -/
def parse_channel (seen : List String) (cutoff : Int) (channel : String)
    (page : Option (List PostBlock)) : List TelegramMessage × List String :=
  match page with
  | none => ([], seen)
  | some divs => divs.foldl (processDiv channel cutoff) ([], seen)

/-! ## `RussianEventExtractor.process_batch`, `TelegramParserV2.process_channel_messages`

The LLM-call oracles are indexed by an explicit call counter `k` threaded
through; each `extract_event_info` invocation consumes one index. -/

structure LlmEnv where
  parseJson : String → Option JsonObj
  loads : Nat → Option Unit
  resps : Nat → Option String

/-- Sequential `extract_event_info` over `(text, url)` pairs (the regex-only
path of `process_batch` when `use_llm` is false). -/
def runAll (env : LlmEnv) (now : PyDate) :
    List (String × String) → ExtractorState → Nat →
    List (Option EventData) × ExtractorState × Nat
  | [], st, k => ([], st, k)
  | (text, url) :: rest, st, k =>
    match extract_event_info env.parseJson st (env.loads k) (env.resps k) now text url with
    | (r, st2) =>
      match runAll env now rest st2 (k + 1) with
      | (tail, stF, kF) => (r :: tail, stF, kF)

/-- Sequential `extract_event_info` over the event-like pairs, producing the
`batch_results[url] = event_data` insertions in order (the batching by 5 in
the source only groups the same sequential per-item calls). -/
def runEvents (env : LlmEnv) (now : PyDate) :
    List (String × String) → ExtractorState → Nat →
    List (String × Option EventData) × ExtractorState × Nat
  | [], st, k => ([], st, k)
  | (text, url) :: rest, st, k =>
    match extract_event_info env.parseJson st (env.loads k) (env.resps k) now text url with
    | (r, st2) =>
      match runEvents env now rest st2 (k + 1) with
      | (tail, stF, kF) => ((url, r) :: tail, stF, kF)

/-- `batch_results.get(url)`: dict semantics, the last insertion for a key
wins; absence yields `None`. -/
def lookupLast (l : List (String × Option EventData)) (url : String) : Option EventData :=
  match l.reverse.find? fun p => p.1 == url with
  | some p => p.2
  | none => none

/-- `RussianEventExtractor.process_batch`.  With `use_llm` the source first
calls `self._get_llm()` once (consuming one oracle index) before the
per-item loop. -/
def process_batch (env : LlmEnv) (now : PyDate) (texts : List (String × String))
    (st : ExtractorState) (k : Nat) : List (Option EventData) × ExtractorState × Nat :=
  if !st.use_llm then runAll env now texts st k
  else
    let event_texts := texts.filter fun p => is_event_text p.1
    if event_texts.isEmpty then (texts.map fun _ => none, st, k)
    else
      match getLlm st (env.loads k) with
      | (_, st1, _) =>
        match runEvents env now event_texts st1 (k + 1) with
        | (br, st2, k2) =>
          (texts.map fun p => if is_event_text p.1 then lookupLast br p.2 else none, st2, k2)

structure ChannelStats where
  total : Nat
  events : Nat
  skipped : Nat
deriving DecidableEq, Repr

/-- Stable ascending sort by `datetime` (`messages.sort(key=lambda x: x.datetime)`). -/
def insertByDate (m : TelegramMessage) : List TelegramMessage → List TelegramMessage
  | [] => [m]
  | x :: xs => if x.datetime ≤ m.datetime then x :: insertByDate m xs else m :: x :: xs

def sortByDate : List TelegramMessage → List TelegramMessage
  | [] => []
  | m :: ms => insertByDate m (sortByDate ms)

/-- `TelegramParserV2.process_channel_messages`: sort, batch-extract, count
events (`some`) and skipped (`none`); `total` is the number of messages. -/
def process_channel_messages (env : LlmEnv) (now : PyDate)
    (messages : List TelegramMessage) (st : ExtractorState) (k : Nat) :
    ChannelStats × ExtractorState × Nat :=
  if messages.isEmpty then ({ total := 0, events := 0, skipped := 0 }, st, k)
  else
    let sorted := sortByDate messages
    match process_batch env now (sorted.map fun m => (m.text, m.url)) st k with
    | (results, st2, k2) =>
      ({ total := sorted.length,
         events := results.countP Option.isSome,
         skipped := results.countP Option.isNone }, st2, k2)

/-! ## `TelegramParserV2.parse_and_process` -/

/-- The helper `parse_and_process_channel`: an empty or failed channel
(`if not messages`) returns `(channel, None)`; otherwise the processed
statistics.  Also returns the updated extractor state, oracle counter and
shared dedup set. -/
def parseAndProcessChannel (env : LlmEnv) (now : PyDate) (seen : List String)
    (cutoff : Int) (channel : String) (page : Option (List PostBlock))
    (st : ExtractorState) (k : Nat) :
    (String × Option ChannelStats) × ExtractorState × Nat × List String :=
  match parse_channel seen cutoff channel page with
  | (msgs, seen2) =>
    if msgs.isEmpty then ((channel, none), st, k, seen2)
    else
      match process_channel_messages env now msgs st k with
      | (stats, st2, k2) => ((channel, some stats), st2, k2, seen2)

/-- One element of the `asyncio.gather(..., return_exceptions=True)` result:
an escaped exception, or the helper's `(channel, stats-or-None)` pair. -/
inductive ChannelResult
  | exn
  | ok (channel : String) (stats : Option ChannelStats)
deriving DecidableEq, Repr

structure FleetStats where
  total_channels : Nat
  processed : Nat
  failed : Nat
  total_messages : Nat
  total_events : Nat
  channels_stats : List (String × ChannelStats)
deriving DecidableEq, Repr

/-- The statistics-accumulation loop of `parse_and_process` (lines 385-397):
an exception or a `None`-stats channel increments `failed`, a successful
channel increments `processed` and the totals. -/
def aggStep (acc : FleetStats) : ChannelResult → FleetStats
  | .exn => { acc with failed := acc.failed + 1 }
  | .ok _ none => { acc with failed := acc.failed + 1 }
  | .ok ch (some s) =>
    { acc with
        processed := acc.processed + 1
        total_messages := acc.total_messages + s.total
        total_events := acc.total_events + s.events
        channels_stats := acc.channels_stats ++ [(ch, s)] }

def initFleetStats (channels : List String) : FleetStats :=
  { total_channels := channels.length, processed := 0, failed := 0,
    total_messages := 0, total_events := 0, channels_stats := [] }

/-- The channel pipelines of `parse_and_process`, run sequentially (the
semaphore-bounded task interleaving is not modelled; the extractor state,
oracle counter and dedup set are the shared resources threaded through). -/
def runChannels (env : LlmEnv) (now : PyDate) (cutoff : Int)
    (fetches : String → Option (List PostBlock)) :
    List String → List String → ExtractorState → Nat → List ChannelResult
  | [], _, _, _ => []
  | ch :: rest, seen, st, k =>
    match parseAndProcessChannel env now seen cutoff ch (fetches ch) st k with
    | (res, st2, k2, seen2) => .ok res.1 res.2 :: runChannels env now cutoff fetches rest seen2 st2 k2

/-- `TelegramParserV2.parse_and_process`: run every channel, then fold the
results into the global statistics. -/
def parse_and_process (env : LlmEnv) (now : PyDate) (cutoff : Int)
    (fetches : String → Option (List PostBlock)) (channels : List String)
    (st : ExtractorState) : FleetStats :=
  (runChannels env now cutoff fetches channels [] st 0).foldl aggStep
    (initFleetStats channels)

/-- `n` successive `_refine_with_llm` calls on the same extractor instance
(oracle indices shift by one per call); returns each call's
(result, load-attempted) pair and the final state. -/
def refineCalls (parseJson : String → Option JsonObj) (loads : Nat → Option Unit)
    (resps : Nat → Option String) (text : String) (info : DraftInfo) :
    Nat → ExtractorState → List (Option EventData × Bool) × ExtractorState
  | 0, st => ([], st)
  | n + 1, st =>
    match refineWithLlm parseJson st (loads 0) (resps 0) text info with
    | (r, st2, att) =>
      match refineCalls parseJson (fun i => loads (i + 1)) (fun i => resps (i + 1))
          text info n st2 with
      | (tail, stF) => ((r, att) :: tail, stF)

/-- The title extractor as the spec describes it: the first non-empty line,
truncated to 100 characters with an ellipsis if cut; if there are no lines,
the first 8 whitespace-tokenized words joined and truncated to 100. -/
def extract_title_specified (text : String) : String :=
  match (splitNl text.data).filter (fun l => !(stripChars l).isEmpty) with
  | [] => String.mk ((joinSpace ((splitWs text.data).take 8)).take 100)
  | l :: _ =>
    let title := stripChars l
    if title.length > 100 then String.mk (title.take 97 ++ '.' :: '.' :: '.' :: [])
    else String.mk title

/-! # Theorems -/

/-! ## C1 — one-shot circuit breaker -/

theorem getLlm_failed (st : ExtractorState) (lr : Option Unit)
    (h : st.llm_error = true) : getLlm st lr = (none, st, false) := by
  simp [getLlm, h]

theorem refineWithLlm_failed (pj : String → Option JsonObj) (st : ExtractorState)
    (lr : Option Unit) (resp : Option String) (text : String) (info : DraftInfo)
    (h : st.llm_error = true) :
    refineWithLlm pj st lr resp text info = (none, st, false) := by
  simp [refineWithLlm, getLlm_failed st lr h]

theorem refineCalls_failed (pj : String → Option JsonObj) (text : String) (info : DraftInfo) :
    ∀ (n : Nat) (loads : Nat → Option Unit) (resps : Nat → Option String)
      (st : ExtractorState), st.llm_error = true →
      (∀ p ∈ (refineCalls pj loads resps text info n st).1, p.1 = none ∧ p.2 = false) ∧
      (refineCalls pj loads resps text info n st).2 = st := by
  intro n
  induction n with
  | zero => intro loads resps st h; simp [refineCalls]
  | succ n ih =>
    intro loads resps st h
    have hr := refineWithLlm_failed pj st (loads 0) (resps 0) text info h
    have ihh := ih (fun i => loads (i + 1)) (fun i => resps (i + 1)) st h
    simp only [refineCalls, hr]
    constructor
    · intro p hp
      rcases List.mem_cons.mp hp with hp2 | hp2
      · simp [hp2]
      · exact ihh.1 p hp2
    · exact ihh.2

/-- Claim C1: after the first model-load attempt fails, `_llm_error` is set;
from then on every `_refine_with_llm` call returns `None` without attempting
another load, and the failed state persists for the rest of the process. -/
theorem circuit_breaker_one_shot (pj : String → Option JsonObj)
    (loads : Nat → Option Unit) (resps : Nat → Option String)
    (text : String) (info : DraftInfo) (st : ExtractorState)
    (hE : st.llm_error = false) (hL : st.llm_loaded = false) (h0 : loads 0 = none) :
    (refineWithLlm pj st (loads 0) (resps 0) text info).1 = none ∧
    (refineWithLlm pj st (loads 0) (resps 0) text info).2.2 = true ∧
    (refineWithLlm pj st (loads 0) (resps 0) text info).2.1.llm_error = true ∧
    ∀ n : Nat,
      (∀ p ∈ (refineCalls pj loads resps text info n
          (refineWithLlm pj st (loads 0) (resps 0) text info).2.1).1,
        p.1 = none ∧ p.2 = false) ∧
      (refineCalls pj loads resps text info n
          (refineWithLlm pj st (loads 0) (resps 0) text info).2.1).2
        = (refineWithLlm pj st (loads 0) (resps 0) text info).2.1 := by
  have hg : getLlm st (loads 0)
      = (none, { st with llm_error := true, use_llm := false }, true) := by
    simp [getLlm, hE, hL, h0]
  have hr : refineWithLlm pj st (loads 0) (resps 0) text info
      = (none, { st with llm_error := true, use_llm := false }, true) := by
    simp [refineWithLlm, hg]
  refine ⟨by simp [hr], by simp [hr], by simp [hr], ?_⟩
  intro n
  rw [hr]
  exact refineCalls_failed pj text info n loads resps _ rfl

theorem circuit_breaker_one_shot_witness :
    (refineWithLlm (fun _ => none) ⟨true, none, false, false⟩ none none "t"
        ⟨"t", "d", "h", "l", "c"⟩).1 = none ∧
    (refineWithLlm (fun _ => none) ⟨true, none, false, false⟩ none none "t"
        ⟨"t", "d", "h", "l", "c"⟩).2.1.llm_error = true ∧
    (refineCalls (fun _ => none) (fun _ => none) (fun _ => none) "t" ⟨"t", "d", "h", "l", "c"⟩ 100
        (refineWithLlm (fun _ => none) ⟨true, none, false, false⟩ none none "t"
          ⟨"t", "d", "h", "l", "c"⟩).2.1).2
      = (refineWithLlm (fun _ => none) ⟨true, none, false, false⟩ none none "t"
          ⟨"t", "d", "h", "l", "c"⟩).2.1 := by
  have h := circuit_breaker_one_shot (fun _ => none) (fun _ => none) (fun _ => none) "t"
    ⟨"t", "d", "h", "l", "c"⟩ ⟨true, none, false, false⟩ rfl rfl rfl
  exact ⟨h.1, h.2.2.1, (h.2.2.2 100).2⟩

/-! ## C3 — classifier decision rule -/

/-- Claim C3: `is_event_text` is true exactly when the distinct-keyword count
is positive and at least one of the date/time/location pattern sets matches,
or the keyword count is at least 2; in particular no keywords and no field
matches is never event-like, and 2 or more keywords always is. -/
theorem classifier_decision (text : String) :
    (is_event_text text = true ↔
      ((0 < event_score text ∧
          (has_date text = true ∨ has_time text = true ∨ has_location text = true))
        ∨ 2 ≤ event_score text)) ∧
    (event_score text = 0 → has_date text = false → has_time text = false →
      has_location text = false → is_event_text text = false) ∧
    (2 ≤ event_score text → is_event_text text = true) := by
  refine ⟨?_, ?_, ?_⟩
  · cases hd : has_date text <;> cases ht : has_time text <;> cases hl : has_location text <;>
      simp [is_event_text, elementsFound, hd, ht, hl]
  · intro h0 hd ht hl
    simp [is_event_text, elementsFound, hd, ht, hl, h0]
  · intro h2
    have : 0 < event_score text := by omega
    simp [is_event_text, elementsFound, h2]

theorem classifier_decision_witness :
    2 ≤ event_score "встреча и регистрация" ∧
      is_event_text "встреча и регистрация" = true :=
  ⟨by decide, (classifier_decision "встреча и регистрация").2.2 (by decide)⟩

/-! ## C6 — fetch retry count and exponential backoff -/

theorem fetchAux_spec (oracle : Nat → Option String) (base : ℚ) :
    ∀ (r k : Nat),
      (fetchAux oracle base k r).2.length ≤ r - 1 ∧
      ∀ j : Nat, j < (fetchAux oracle base k r).2.length →
        (fetchAux oracle base k r).2.getD j 0 = min (base * 2 ^ (k + j)) 30 := by
  intro r
  induction r with
  | zero => intro k; simp [fetchAux]
  | succ r ih =>
    intro k
    cases ho : oracle k with
    | some body =>
      have he : fetchAux oracle base k (r + 1) = (some body, []) := by
        rw [fetchAux, ho]
      rw [he]
      simp
    | none =>
      by_cases hr : r = 0
      · subst hr
        have he : fetchAux oracle base k 1 = (none, []) := by
          rw [fetchAux, ho]; rfl
        rw [he]
        simp
      · have he2 : (fetchAux oracle base k (r + 1)).2
            = min (base * 2 ^ k) 30 :: (fetchAux oracle base (k + 1) r).2 := by
          rw [fetchAux, ho, if_neg hr]
        have ihk := ih (k + 1)
        rw [he2]
        constructor
        · have := ihk.1
          simp only [List.length_cons]
          omega
        · intro j hj
          cases j with
          | zero => simp
          | succ j =>
            simp only [List.getD_cons_succ]
            have hjl : j < (fetchAux oracle base (k + 1) r).2.length := by
              have hj2 : j + 1 < (fetchAux oracle base (k + 1) r).2.length + 1 := by
                simpa using hj
              omega
            have := ihk.2 j hjl
            rw [show k + (j + 1) = k + 1 + j from by omega]
            exact this

/-- Claim C6: the page fetcher makes at most `maxRetries` attempts (hence at
most `maxRetries - 1` sleeps), and the `k`-th sleep (0-indexed over the
retries) lasts `min(baseDelay * 2^k, 30)` seconds. -/
theorem fetch_retry_backoff (oracle : Nat → Option String) (maxRetries : Nat) (base : ℚ) :
    (fetchPage oracle maxRetries base).2.length ≤ maxRetries - 1 ∧
    ∀ j : Nat, j < (fetchPage oracle maxRetries base).2.length →
      (fetchPage oracle maxRetries base).2.getD j 0 = min (base * 2 ^ j) 30 := by
  have h := fetchAux_spec oracle base maxRetries 0
  refine ⟨h.1, fun j hj => ?_⟩
  have := h.2 j hj
  simpa using this

theorem fetch_retry_backoff_witness :
    (fetchPage (fun _ => none) 3 2).2.length ≤ 2 ∧
      0 < (fetchPage (fun _ => none) 3 2).2.length ∧
      (fetchPage (fun _ => none) 3 2).2.getD 0 0 = min ((2 : ℚ) * 2 ^ 0) 30 := by
  have h := fetch_retry_backoff (fun _ => none) 3 2
  have hl : 0 < (fetchPage (fun _ => none) 3 2).2.length := by
    simp [fetchPage, fetchAux]
  exact ⟨h.1, hl, h.2 0 hl⟩

/-! ## C2 — confidence invariant -/

theorem dateFromDMY_conf (s : List Char) (r : String × ℚ)
    (h : dateFromDMY s = some r) : r.2 = 95/100 := by
  unfold dateFromDMY at h
  rcases hf : findDMY s with _ | c <;> rw [hf] at h
  · simp at h
  · simp only [Option.some_bind] at h
    split at h
    · exact (Option.some_inj.mp h).symm ▸ rfl
    · simp at h

theorem dateFromDM_conf (now : PyDate) (s : List Char) (r : String × ℚ)
    (h : dateFromDM now s = some r) : r.2 = 85/100 := by
  unfold dateFromDM at h
  rcases hf : findDM s with _ | c <;> rw [hf] at h
  · simp at h
  · simp only [Option.some_bind] at h
    split at h
    · exact (Option.some_inj.mp h).symm ▸ rfl
    · simp at h

theorem dateFromMonthName_conf (now : PyDate) (tl : List Char) (r : String × ℚ)
    (h : dateFromMonthName now tl = some r) : r.2 = 90/100 := by
  unfold dateFromMonthName at h
  rcases hf : findMonthName tl with _ | c <;> rw [hf] at h
  · simp at h
  · simp only [Option.some_bind] at h
    split at h
    · exact (Option.some_inj.mp h).symm ▸ rfl
    · simp at h

theorem extract_date_conf (now : PyDate) (text : String) :
    (0 ≤ (extract_date now text).2 ∧ (extract_date now text).2 ≤ 1) ∧
    ((extract_date now text).2 = 0 → (extract_date now text).1 = "Не указана") := by
  simp only [extract_date]
  split
  · exact ⟨⟨by norm_num, by norm_num⟩, fun h => absurd h (by norm_num)⟩
  split
  · exact ⟨⟨by norm_num, by norm_num⟩, fun h => absurd h (by norm_num)⟩
  split
  · exact ⟨⟨by norm_num, by norm_num⟩, fun h => absurd h (by norm_num)⟩
  split
  next r heq =>
    have hc := dateFromDMY_conf _ r heq
    exact ⟨⟨by rw [hc]; norm_num, by rw [hc]; norm_num⟩,
           fun h => absurd (hc ▸ h) (by norm_num)⟩
  split
  next r heq =>
    have hc := dateFromDM_conf now _ r heq
    exact ⟨⟨by rw [hc]; norm_num, by rw [hc]; norm_num⟩,
           fun h => absurd (hc ▸ h) (by norm_num)⟩
  split
  next r heq =>
    have hc := dateFromMonthName_conf now _ r heq
    exact ⟨⟨by rw [hc]; norm_num, by rw [hc]; norm_num⟩,
           fun h => absurd (hc ▸ h) (by norm_num)⟩
  exact ⟨⟨by norm_num, by norm_num⟩, fun _ => rfl⟩

theorem extract_time_conf (text : String) :
    (0 ≤ (extract_time text).2 ∧ (extract_time text).2 ≤ 1) ∧
    ((extract_time text).2 = 0 → (extract_time text).1 = "Не указано") := by
  simp only [extract_time]
  split
  · exact ⟨⟨by norm_num, by norm_num⟩, fun h => absurd h (by norm_num)⟩
  split
  · exact ⟨⟨by norm_num, by norm_num⟩, fun h => absurd h (by norm_num)⟩
  split
  · exact ⟨⟨by norm_num, by norm_num⟩, fun h => absurd h (by norm_num)⟩
  exact ⟨⟨by norm_num, by norm_num⟩, fun _ => rfl⟩

theorem extract_location_conf (text : String) :
    (0 ≤ (extract_location text).2 ∧ (extract_location text).2 ≤ 1) ∧
    ((extract_location text).2 = 0 → (extract_location text).1 = "Не указано") := by
  simp only [extract_location]
  split
  · exact ⟨⟨by norm_num, by norm_num⟩, fun h => absurd h (by norm_num)⟩
  split
  · exact ⟨⟨by norm_num, by norm_num⟩, fun h => absurd h (by norm_num)⟩
  split
  · exact ⟨⟨by norm_num, by norm_num⟩, fun h => absurd h (by norm_num)⟩
  split
  · exact ⟨⟨by norm_num, by norm_num⟩, fun h => absurd h (by norm_num)⟩
  split
  · exact ⟨⟨by norm_num, by norm_num⟩, fun h => absurd h (by norm_num)⟩
  exact ⟨⟨by norm_num, by norm_num⟩, fun _ => rfl⟩

theorem heuristic_conf_spec (now : PyDate) (text url : String) :
    (0 ≤ (heuristicEvent now text url).confidence ∧
      (heuristicEvent now text url).confidence ≤ 1) ∧
    ((heuristicEvent now text url).confidence = 0 →
      (extract_date now text).1 = "Не указана" ∧ (extract_time text).1 = "Не указано" ∧
        (extract_location text).1 = "Не указано") := by
  have hd := extract_date_conf now text
  have ht := extract_time_conf text
  have hl := extract_location_conf text
  have hsum0 : 0 ≤ ((extract_date now text).2 + (extract_time text).2
      + (extract_location text).2) / 3 := by
    have := hd.1.1; have := ht.1.1; have := hl.1.1
    linarith
  constructor
  · constructor
    · exact le_min hsum0 (by norm_num)
    · simp only [heuristicEvent]
      exact min_le_right _ _
  · intro h0
    simp only [heuristicEvent] at h0
    have hm : ((extract_date now text).2 + (extract_time text).2
        + (extract_location text).2) / 3 = 0 := by
      rcases min_cases (((extract_date now text).2 + (extract_time text).2
        + (extract_location text).2) / 3) (1 : ℚ) with ⟨he, _⟩ | ⟨he, _⟩
      · rw [he] at h0; exact h0
      · rw [he] at h0; norm_num at h0
    have hz : (extract_date now text).2 = 0 ∧ (extract_time text).2 = 0 ∧
        (extract_location text).2 = 0 := by
      have h1 := hd.1.1; have h2 := ht.1.1; have h3 := hl.1.1
      constructor
      · linarith [hm]
      constructor
      · linarith [hm]
      · linarith [hm]
    exact ⟨hd.2 hz.1, ht.2 hz.2.1, hl.2 hz.2.2⟩

theorem refineWithLlm_conf (pj : String → Option JsonObj) (st : ExtractorState)
    (lr : Option Unit) (resp : Option String) (text : String) (info : DraftInfo)
    (e : EventData) (h : (refineWithLlm pj st lr resp text info).1 = some e) :
    e.confidence = 85/100 := by
  unfold refineWithLlm at h
  split at h
  · simp at h
  · split at h
    · simp at h
    · split at h
      · simp at h
      · split at h
        · simp at h
        · have := Option.some_inj.mp h
          rw [← this]

/-- Claim C2: every produced event record has confidence in `[0, 1]`; a
heuristically-built record's confidence is the mean of the date, time and
location confidences clamped to `[0, 1]`, and it is `0` only when none of
date, time and location were recognized. -/
theorem confidence_invariant :
    (∀ (pj : String → Option JsonObj) (st : ExtractorState) (lr : Option Unit)
        (resp : Option String) (now : PyDate) (text url : String) (e : EventData)
        (st2 : ExtractorState),
      extract_event_info pj st lr resp now text url = (some e, st2) →
      0 ≤ e.confidence ∧ e.confidence ≤ 1) ∧
    (∀ (now : PyDate) (text url : String),
      (heuristicEvent now text url).confidence
        = min (((extract_date now text).2 + (extract_time text).2
            + (extract_location text).2) / 3) 1 ∧
      ((heuristicEvent now text url).confidence = 0 →
        (extract_date now text).1 = "Не указана" ∧ (extract_time text).1 = "Не указано" ∧
          (extract_location text).1 = "Не указано")) := by
  constructor
  · intro pj st lr resp now text url e st2 h
    unfold extract_event_info at h
    split at h
    · simp at h
    · split at h
      · split at h
        next e2 st3 att heq =>
          have he : e = e2 := by
            have := (Prod.mk.injEq _ _ _ _).mp h
            exact (Option.some_inj.mp this.1).symm
          have hc := refineWithLlm_conf pj st lr resp text (draftOf now text) e2 (by rw [heq])
          rw [he, hc]
          norm_num
        next st3 att heq =>
          have he : e = heuristicEvent now text url := by
            have := (Prod.mk.injEq _ _ _ _).mp h
            exact (Option.some_inj.mp this.1).symm
          rw [he]
          exact (heuristic_conf_spec now text url).1
      · have he : e = heuristicEvent now text url := by
          have := (Prod.mk.injEq _ _ _ _).mp h
          exact (Option.some_inj.mp this.1).symm
        rw [he]
        exact (heuristic_conf_spec now text url).1
  · intro now text url
    exact ⟨rfl, (heuristic_conf_spec now text url).2⟩

theorem confidence_invariant_witness :
    (0 ≤ (heuristicEvent ⟨2024, 1, 1⟩ "приглашаем на мероприятие" "u").confidence ∧
      (heuristicEvent ⟨2024, 1, 1⟩ "приглашаем на мероприятие" "u").confidence ≤ 1) ∧
    ((heuristicEvent ⟨2024, 1, 1⟩ "приглашаем на мероприятие" "u").confidence
        = min (((extract_date ⟨2024, 1, 1⟩ "приглашаем на мероприятие").2
            + (extract_time "приглашаем на мероприятие").2
            + (extract_location "приглашаем на мероприятие").2) / 3) 1) ∧
    ((extract_date ⟨2024, 1, 1⟩ "приглашаем на мероприятие").1 = "Не указана" ∧
      (extract_time "приглашаем на мероприятие").1 = "Не указано" ∧
      (extract_location "приглашаем на мероприятие").1 = "Не указано") := by
  have h1 := confidence_invariant.1 (fun _ => none) ⟨false, none, false, false⟩ none none
    ⟨2024, 1, 1⟩ "приглашаем на мероприятие" "u"
    (heuristicEvent ⟨2024, 1, 1⟩ "приглашаем на мероприятие" "u")
    ⟨false, none, false, false⟩ rfl
  have h2 := confidence_invariant.2 ⟨2024, 1, 1⟩ "приглашаем на мероприятие" "u"
  have h0 : (heuristicEvent ⟨2024, 1, 1⟩ "приглашаем на мероприятие" "u").confidence = 0 := by
    show min ((((0 : ℚ)) + 0 + 0) / 3) 1 = 0
    norm_num
  exact ⟨h1, h2.1, h2.2 h0⟩

/-! ## C4 — relative date terms (corrected: `послезавтра` contains `завтра`) -/

theorem relative_date_counterexample :
    (extract_date ⟨2024, 12, 24⟩ "послезавтра").1 = "25.12.2024" ∧
    (extract_date ⟨2024, 12, 24⟩ "послезавтра").2 = 95/100 ∧
    fmtDate (addDays 2 ⟨2024, 12, 24⟩) = "26.12.2024" ∧
    (extract_date ⟨2024, 12, 24⟩ "послезавтра").1 ≠ fmtDate (addDays 2 ⟨2024, 12, 24⟩) := by
  exact ⟨by decide, rfl, by decide, by decide⟩

theorem listPrefix_append_drop (a b : List Char) :
    ∀ l, listPrefix (a ++ b) l = true → listPrefix b (l.drop a.length) = true := by
  induction a with
  | nil => intro l h; simpa using h
  | cons c cs ih =>
    intro l h
    cases l with
    | nil => simp [listPrefix] at h
    | cons dd ds =>
      simp only [List.cons_append, listPrefix, Bool.and_eq_true] at h
      simpa using ih ds h.2

theorem listPrefix_le_length : ∀ (a l : List Char), listPrefix a l = true → a.length ≤ l.length := by
  intro a
  induction a with
  | nil => intro l _; simp
  | cons c cs ih =>
    intro l h
    cases l with
    | nil => simp [listPrefix] at h
    | cons dd ds =>
      simp only [listPrefix, Bool.and_eq_true] at h
      have := ih ds h.2
      simp only [List.length_cons]
      omega

theorem zavtra_of_poslezavtra (hay : List Char)
    (h : listContains hay "послезавтра".data = true) :
    listContains hay "завтра".data = true := by
  unfold listContains at h ⊢
  rw [List.any_eq_true] at h ⊢
  obtain ⟨i, hi, hp⟩ := h
  have hsplit : ("послезавтра".data : List Char) = "после".data ++ "завтра".data := by decide
  rw [hsplit] at hp
  have hp2 := listPrefix_append_drop "после".data "завтра".data _ hp
  have hlen := listPrefix_le_length _ _ hp
  have h5 : ("после".data : List Char).length = 5 := rfl
  have h6 : ("завтра".data : List Char).length = 6 := rfl
  refine ⟨i + 5, ?_, ?_⟩
  · rw [List.mem_range] at hi ⊢
    have hd : (hay.drop i).length = hay.length - i := by simp
    rw [List.length_append, h5, h6, hd] at hlen
    omega
  · rw [h5, List.drop_drop] at hp2
    exact hp2

/-- Claim C4 (amended): relative-date terms are resolved from the current
Moscow date with confidence 0.95, but because the `завтра` substring check is
performed first and `послезавтра` contains `завтра`, a text containing
`послезавтра` yields the current date plus one day (not two); `сегодня`
yields the current date only when `завтра` is absent. -/
theorem relative_date_amended (now : PyDate) (text : String) :
    (listContains (lowerL text.data) "завтра".data = true →
      extract_date now text = (fmtDate (addDays 1 now), 95/100)) ∧
    (listContains (lowerL text.data) "завтра".data = false →
      listContains (lowerL text.data) "сегодня".data = true →
      extract_date now text = (fmtDate now, 95/100)) ∧
    (listContains (lowerL text.data) "послезавтра".data = true →
      extract_date now text = (fmtDate (addDays 1 now), 95/100)) := by
  have main : listContains (lowerL text.data) "завтра".data = true →
      extract_date now text = (fmtDate (addDays 1 now), 95/100) := by
    intro h
    simp [extract_date, h]
  refine ⟨main, ?_, fun h => main (zavtra_of_poslezavtra _ h)⟩
  intro h1 h2
  simp [extract_date, h1, h2]

theorem relative_date_amended_witness :
    listContains (lowerL ("скоро послезавтра".data)) "послезавтра".data = true ∧
    extract_date ⟨2024, 12, 30⟩ "скоро послезавтра"
      = (fmtDate (addDays 1 ⟨2024, 12, 30⟩), 95/100) :=
  ⟨by decide, (relative_date_amended ⟨2024, 12, 30⟩ "скоро послезавтра").2.2 (by decide)⟩

/-! ## C5 — single-time branch (corrected: no range validation) -/

theorem time_validation_counterexample :
    (extract_time "в 99:99").1 = "99:99" ∧
    (extract_time "в 99:99").2 = 90/100 ∧
    ¬ natOfDigits ("99".data) ≤ 23 := by
  exact ⟨by decide, rfl, by decide⟩

theorem findSome_ex {α β : Type} (f : α → Option β) :
    ∀ (l : List α) (b : β), l.findSome? f = some b → ∃ a ∈ l, f a = some b := by
  intro l
  induction l with
  | nil => intro b h; simp [List.findSome?] at h
  | cons x xs ih =>
    intro b h
    rw [List.findSome?] at h
    cases hx : f x with
    | some v =>
      rw [hx] at h
      simp at h
      exact ⟨x, by simp, by rw [hx, h]⟩
    | none =>
      rw [hx] at h
      simp at h
      obtain ⟨a, ha, hfa⟩ := ih b h
      exact ⟨a, by simp [ha], hfa⟩

theorem natOfDigits_aux_lt : ∀ (l : List Char) (acc : Nat), l.all isDigitC = true →
    l.foldl (fun acc c => acc * 10 + (c.toNat - '0'.toNat)) acc < (acc + 1) * 10 ^ l.length := by
  intro l
  induction l with
  | nil => intro acc _; simp
  | cons c cs ih =>
    intro acc h
    simp only [List.all_cons, Bool.and_eq_true] at h
    have hd : c.toNat - '0'.toNat ≤ 9 := by
      have h1 := h.1
      simp only [isDigitC, Bool.and_eq_true, decide_eq_true_eq] at h1
      have h0 : ('0' : Char).toNat = 48 := rfl
      omega
    have := ih (acc * 10 + (c.toNat - '0'.toNat)) h.2
    simp only [List.foldl_cons, List.length_cons]
    calc List.foldl (fun acc c => acc * 10 + (c.toNat - '0'.toNat))
          (acc * 10 + (c.toNat - '0'.toNat)) cs
        < (acc * 10 + (c.toNat - '0'.toNat) + 1) * 10 ^ cs.length := this
      _ ≤ (acc + 1) * 10 ^ (cs.length + 1) := by
          have hstep : acc * 10 + (c.toNat - '0'.toNat) + 1 ≤ (acc + 1) * 10 := by omega
          calc (acc * 10 + (c.toNat - '0'.toNat) + 1) * 10 ^ cs.length
              ≤ ((acc + 1) * 10) * 10 ^ cs.length := Nat.mul_le_mul_right _ hstep
            _ = (acc + 1) * 10 ^ (cs.length + 1) := by ring

theorem natOfDigits_le_of_short (l : List Char) (h : l.all isDigitC = true)
    (hl : l.length ≤ 2) : natOfDigits l ≤ 99 := by
  have hx := natOfDigits_aux_lt l 0 h
  have hpow : 10 ^ l.length ≤ 10 ^ 2 := Nat.pow_le_pow_right (by omega) hl
  unfold natOfDigits
  omega

theorem timeSingleAt_shape (s : List Char) (i : Nat) (h m : List Char)
    (heq : timeSingleAt s i = some (h, m)) :
    h.length ≤ 2 ∧ h.all isDigitC = true ∧ m.length = 2 ∧ m.all isDigitC = true := by
  unfold timeSingleAt at heq
  obtain ⟨a, hmem, hfa⟩ := findSome_ex _ _ _ heq
  have ha2 : a ≤ 2 := by
    simp only [List.mem_cons, List.not_mem_nil, or_false] at hmem
    rcases hmem with rfl | rfl <;> omega
  split at hfa
  next hcond =>
    have hinj := Option.some_inj.mp hfa
    have hh : (s.drop i).take a = h := congrArg Prod.fst hinj
    have hm2 : (s.drop (i + a + 1)).take 2 = m := congrArg Prod.snd hinj
    simp only [Bool.and_eq_true] at hcond
    have hda := hcond.1.1.1.2
    have hdm := hcond.1.2
    simp only [digitsAt, Bool.and_eq_true, decide_eq_true_eq] at hda hdm
    refine ⟨?_, ?_, ?_, ?_⟩
    · rw [← hh]
      omega
    · rw [← hh]; exact hda.2
    · rw [← hm2]; exact hdm.1
    · rw [← hm2]; exact hdm.2
  next => simp at hfa

/-- Claim C5 (amended): whenever the time extractor returns a single time
with confidence 0.90, the matched hour has one or two digits and the minute
exactly two, so both values are at most 99 — the source performs no
`[0,23]` / `[0,59]` range validation (its `int(...)` conversion cannot
fail on digit captures). -/
theorem single_time_amended (text : String) (h m : List Char)
    (hr : findTimeRange text.data = none)
    (hs : findTimeSingle text.data = some (h, m)) :
    extract_time text = (String.mk (zfill2 h ++ ':' :: m), 90/100) ∧
    natOfDigits h ≤ 99 ∧ natOfDigits m ≤ 99 := by
  obtain ⟨i, _, hat⟩ := findSome_ex _ _ _ hs
  have hshape := timeSingleAt_shape text.data i h m hat
  refine ⟨?_, ?_, ?_⟩
  · simp only [extract_time, hr, hs]
  · exact natOfDigits_le_of_short h hshape.2.1 hshape.1
  · exact natOfDigits_le_of_short m hshape.2.2.2 (by omega)

theorem single_time_amended_witness :
    findTimeRange ("в 99:99".data) = none ∧
    findTimeSingle ("в 99:99".data) = some ("99".data, "99".data) ∧
    extract_time "в 99:99" = (String.mk (zfill2 ("99".data) ++ ':' :: "99".data), 90/100) ∧
    natOfDigits ("99".data) ≤ 99 := by
  have hr : findTimeRange ("в 99:99".data) = none := by decide
  have hs : findTimeSingle ("в 99:99".data) = some ("99".data, "99".data) := by decide
  have h := single_time_amended "в 99:99" ("99".data) ("99".data) hr hs
  exact ⟨hr, hs, h.1, h.2.1⟩

/-! ## C7 — JSON extraction and heuristic fallback (corrected: the regex only
tolerates one level of nesting) -/

def deepResponse : String := "\x7b\"a\": \x7b\"b\": \x7b\"c\": 1\x7d\x7d\x7d"

theorem json_extraction_counterexample :
    extractJsonFragment deepResponse = some "\x7b\"b\": \x7b\"c\": 1\x7d\x7d" ∧
    firstBalancedBlock deepResponse = some deepResponse ∧
    extractJsonFragment deepResponse ≠ firstBalancedBlock deepResponse := by
  exact ⟨by decide, by decide, by decide⟩

/-- Claim C7 (amended): the refinement stage extracts the leftmost brace
fragment containing at most one level of nesting (which on responses whose
first balanced object nests deeper is an inner fragment, not that object);
whenever the model answer is empty, no fragment is found, or the fragment
fails to parse, `_refine_with_llm` returns null, and on a null refinement
`extract_event_info` still emits the heuristic draft record. -/
theorem json_fallback_amended (pj : String → Option JsonObj) (st : ExtractorState)
    (lr : Option Unit) (resp : Option String) (now : PyDate) (text url : String) :
    (resp = none → (refineWithLlm pj st lr resp text (draftOf now text)).1 = none) ∧
    (∀ r, resp = some r → extractJsonFragment r = none →
      (refineWithLlm pj st lr resp text (draftOf now text)).1 = none) ∧
    (∀ r frag, resp = some r → extractJsonFragment r = some frag → pj frag = none →
      (refineWithLlm pj st lr resp text (draftOf now text)).1 = none) ∧
    (st.use_llm = true → is_event_text text = true →
      (refineWithLlm pj st lr resp text (draftOf now text)).1 = none →
      extract_event_info pj st lr resp now text url
        = (some (heuristicEvent now text url),
           (refineWithLlm pj st lr resp text (draftOf now text)).2.1)) := by
  refine ⟨?_, ?_, ?_, ?_⟩
  · intro hresp
    subst hresp
    unfold refineWithLlm
    split
    · rfl
    · rfl
  · intro r hresp hfrag
    subst hresp
    unfold refineWithLlm
    split
    · rfl
    · simp [hfrag]
  · intro r frag hresp hfrag hpj
    subst hresp
    unfold refineWithLlm
    split
    · rfl
    · simp [hfrag, hpj]
  · intro hU hEv hNone
    unfold extract_event_info
    rw [hEv, hU]
    simp only [Bool.not_true, Bool.false_eq_true, if_false, if_true]
    split
    next e2 st3 att heq =>
      rw [heq] at hNone
      simp at hNone
    next st3 att heq =>
      rw [heq]

theorem json_fallback_amended_witness :
    (refineWithLlm (fun _ => none) ⟨true, none, false, false⟩ none none "мероприятие встреча"
        (draftOf ⟨2024, 6, 1⟩ "мероприятие встреча")).1 = none ∧
    extract_event_info (fun _ => none) ⟨true, none, false, false⟩ none none
        ⟨2024, 6, 1⟩ "мероприятие встреча" "u"
      = (some (heuristicEvent ⟨2024, 6, 1⟩ "мероприятие встреча" "u"),
         (refineWithLlm (fun _ => none) ⟨true, none, false, false⟩ none none "мероприятие встреча"
            (draftOf ⟨2024, 6, 1⟩ "мероприятие встреча")).2.1) := by
  have h := json_fallback_amended (fun _ => none) ⟨true, none, false, false⟩ none none
    ⟨2024, 6, 1⟩ "мероприятие встреча" "u"
  have hNone : (refineWithLlm (fun _ => none) ⟨true, none, false, false⟩ none none
      "мероприятие встреча" (draftOf ⟨2024, 6, 1⟩ "мероприятие встреча")).1 = none :=
    h.1 rfl
  exact ⟨hNone, h.2.2.2 rfl (by decide) hNone⟩

/-! ## C8 — failed fetch vs empty channel (corrected: both land in `failed`) -/

def oracleEnv : LlmEnv := ⟨fun _ => none, fun _ => none, fun _ => none⟩

theorem failed_vs_empty_counterexample :
    (parseAndProcessChannel oracleEnv ⟨2024, 1, 1⟩ [] 0 "a" none
        ⟨false, none, false, false⟩ 0).1 = ("a", none) ∧
    (parseAndProcessChannel oracleEnv ⟨2024, 1, 1⟩ [] 0 "b" (some [])
        ⟨false, none, false, false⟩ 0).1 = ("b", none) ∧
    (parse_and_process oracleEnv ⟨2024, 1, 1⟩ 0
        (fun ch => if ch = "a" then none else some []) ["a", "b"]
        ⟨false, none, false, false⟩).failed = 2 ∧
    (parse_and_process oracleEnv ⟨2024, 1, 1⟩ 0
        (fun ch => if ch = "a" then none else some []) ["a", "b"]
        ⟨false, none, false, false⟩).processed = 0 ∧
    (parse_and_process oracleEnv ⟨2024, 1, 1⟩ 0
        (fun ch => if ch = "a" then none else some []) ["a", "b"]
        ⟨false, none, false, false⟩).channels_stats = [] := by
  exact ⟨by decide, by decide, by decide, by decide, by decide⟩

/-- Claim C8 (amended): a channel whose fetch fails entirely and an
empty-but-successful channel both return `(channel, None)` from the per-
channel helper and are counted in the same `failed` statistics bucket; the
run statistics do not distinguish them. -/
theorem failed_vs_empty_amended (env : LlmEnv) (now : PyDate) (seen : List String)
    (cutoff : Int) (ch : String) (st : ExtractorState) (k : Nat) :
    (parseAndProcessChannel env now seen cutoff ch none st k).1 = (ch, none) ∧
    (parseAndProcessChannel env now seen cutoff ch (some []) st k).1 = (ch, none) ∧
    ∀ acc : FleetStats,
      aggStep acc (.ok ch none) = { acc with failed := acc.failed + 1 } ∧
      (aggStep acc (.ok ch none)).processed = acc.processed := by
  exact ⟨rfl, rfl, fun acc => ⟨rfl, rfl⟩⟩

/-! ## C9 — title extractor (corrected: first line, not first non-empty line) -/

theorem title_first_line_counterexample :
    extract_title "\nДень открытых дверей" = "" ∧
    extract_title_specified "\nДень открытых дверей" = "День открытых дверей" ∧
    extract_title "\nДень открытых дверей"
      ≠ extract_title_specified "\nДень открытых дверей" := by
  exact ⟨by decide, by decide, by decide⟩

theorem splitNl_ne_nil : ∀ l : List Char, splitNl l ≠ [] := by
  intro l
  cases l with
  | nil => simp [splitNl]
  | cons c cs =>
    rw [splitNl]
    cases h : splitNl cs with
    | nil => simp
    | cons hd tl =>
      by_cases hc : c = '\n' <;> simp [hc]

/-- Claim C9 (amended): the title extractor returns the *first* line of the
text, stripped, truncated to 97 characters plus a three-character ellipsis
when longer than 100 (never exceeding 100 characters); the
first-8-words fallback is unreachable because line splitting always yields
at least one line. -/
theorem title_amended (text : String) :
    (∃ l rest, splitNl text.data = l :: rest ∧
      extract_title text
        = (if (stripChars l).length > 100
            then String.mk ((stripChars l).take 97 ++ '.' :: '.' :: '.' :: [])
            else String.mk (stripChars l))) ∧
    (extract_title text).length ≤ 100 := by
  cases hsp : splitNl text.data with
  | nil => exact absurd hsp (splitNl_ne_nil text.data)
  | cons l rest =>
    have he : extract_title text
        = (if (stripChars l).length > 100
            then String.mk ((stripChars l).take 97 ++ '.' :: '.' :: '.' :: [])
            else String.mk (stripChars l)) := by
      unfold extract_title
      rw [hsp]
    refine ⟨⟨l, rest, rfl, he⟩, ?_⟩
    rw [he]
    by_cases hlen : (stripChars l).length > 100
    · rw [if_pos hlen]
      show (((stripChars l).take 97 ++ '.' :: '.' :: '.' :: []).length) ≤ 100
      rw [List.length_append, List.length_take]
      simp
    · rw [if_neg hlen]
      show ((stripChars l).length) ≤ 100
      omega

/-! ## C10 — posts with short cleaned text are silently dropped -/

/-- Claim C10: the per-post step of `parse_channel` leaves the accumulated
`(messages, seen_messages)` untouched for a post lacking a timestamp, text
block, or permalink, and for a post whose cleaned text is shorter than 10
characters (which subsumes the empty case); such a post never reaches the
dedup set, and removing it from the page leaves the channel's parse result —
hence its statistics — unchanged. -/
theorem short_posts_dropped (channel : String) (cutoff : Int) (d : PostBlock) :
    (∀ acc, d.timeTag = none → processDiv channel cutoff acc d = acc) ∧
    (∀ acc, d.textDiv = none → processDiv channel cutoff acc d = acc) ∧
    (∀ acc, d.link = none → processDiv channel cutoff acc d = acc) ∧
    (∀ acc raw, d.textDiv = some raw → (clean_text raw).length < 10 →
      processDiv channel cutoff acc d = acc) ∧
    (∀ raw, d.textDiv = some raw → (clean_text raw).length < 10 →
      ∀ (seen : List String) (l1 l2 : List PostBlock),
        parse_channel seen cutoff channel (some (l1 ++ d :: l2))
          = parse_channel seen cutoff channel (some (l1 ++ l2))) := by
  have hshort : ∀ acc raw, d.textDiv = some raw → (clean_text raw).length < 10 →
      processDiv channel cutoff acc d = acc := by
    intro acc raw hraw hlen
    unfold processDiv
    cases ht : d.timeTag with
    | none => rfl
    | some t =>
      by_cases hcut : t < cutoff
      · simp [hcut]
      · rw [hraw]
        simp [hcut, hlen]
  refine ⟨?_, ?_, ?_, hshort, ?_⟩
  · intro acc hn
    unfold processDiv
    rw [hn]
  · intro acc hn
    unfold processDiv
    cases ht : d.timeTag with
    | none => rfl
    | some t =>
      by_cases hcut : t < cutoff
      · simp [hcut]
      · rw [hn]
        simp [hcut]
  · intro acc hn
    unfold processDiv
    cases ht : d.timeTag with
    | none => rfl
    | some t =>
      by_cases hcut : t < cutoff
      · simp [hcut]
      · cases htd : d.textDiv with
        | none => simp [hcut]
        | some raw =>
          simp only [hcut, if_false]
          split
          · rfl
          · rw [hn]
  · intro raw hraw hlen seen l1 l2
    have hred : ∀ divs, parse_channel seen cutoff channel (some divs)
        = divs.foldl (processDiv channel cutoff) ([], seen) := fun _ => rfl
    rw [hred, hred, List.foldl_append, List.foldl_cons, hshort _ raw hraw hlen,
      ← List.foldl_append]

theorem short_posts_dropped_witness :
    (clean_text "короткий").length < 10 ∧
    processDiv "c" 0 ([], []) ⟨some 5, some "короткий", some "https://t.me/c/1"⟩ = ([], []) := by
  have h := (short_posts_dropped "c" 0 ⟨some 5, some "короткий", some "https://t.me/c/1"⟩).2.2.2.1
    ([], []) "короткий" rfl (by decide)
  exact ⟨by decide, h⟩
